import Mathlib

/-!
Verification development for the FlowTest repository (ft-analyzer core).

The definitions below are a shallow embedding of the two engines under
src/tools/ft-analyzer:

- ftanalyzer/models/statistical_model.py (class StatisticalModel and its
  data types from ftanalyzer/models/sm_data_types.py), and
- ftanalyzer/replicator/flow_replicator.py (class FlowReplicator).

Datasets (pandas DataFrames in the source) are embedded as lists of records;
unsigned integer columns become Nat, numpy int64 arithmetic is made explicit
with wrap-around operations, and floating point results that matter only
through comparisons (the relative difference of a metric) are embedded as an
explicit value domain with infinity and NaN points.
-/

namespace FlowTest

/-! ### Flow records (CSV rows of both engines)

Columns per statistical_model.py CSV_COLUMN_TYPES / flow_replicator.py
CSV_COLUMN_TYPES: START_TIME, END_TIME (uint64 milliseconds), PROTOCOL,
SRC_IP, DST_IP, SRC_PORT, DST_PORT, PACKETS, BYTES.  The IP columns are str
when loaded and become address objects after conversion, hence the type
parameter. -/

structure Row (α : Type) where
  startTime : Nat
  endTime : Nat
  protocol : Nat
  srcIp : α
  dstIp : α
  srcPort : Nat
  dstPort : Nat
  packets : Nat
  bytes : Nat
deriving DecidableEq, Repr

/-- Model of Python str.startswith: the character list of the pattern is a
prefix of the character list of the string. -/
def strStartsWith (s pat : String) : Bool :=
  pat.data.isPrefixOf s.data

/-- Minimum of a list of Nat values; the empty case never occurs on the
nonempty groups produced by groupby.  Models the min aggregation. -/
def listMinD : List Nat → Nat
  | [] => 0
  | x :: xs => xs.foldl Nat.min x

/-- Maximum of a list of Nat values; models the max aggregation. -/
def listMaxD : List Nat → Nat
  | [] => 0
  | x :: xs => xs.foldl Nat.max x

/-- The unique values of a list in order of first occurrence; models how a
pandas groupby with sort disabled enumerates group keys.  When the keys are
emitted sorted by pandas, the lists processed here always carry equal keys
in consecutive runs, so first-occurrence order and sorted order agree for
the properties proved below, which never depend on the output order. -/
def firstUniq {α : Type} [DecidableEq α] : List α → List α
  | [] => []
  | x :: xs => x :: (firstUniq xs).filter (fun y => y ≠ x)

/-! ### StatisticalModel.__init__ steps -/

/-- StatisticalModel._filter_multicast: drops probe records whose DST_IP is
the IPv4 broadcast address and records whose DST_IP starts with ff02::.
Only self._flows is filtered; the method does not touch self._ref. -/
def filterMulticast (rows : List (Row String)) : List (Row String) :=
  ((rows.filter (fun r => r.dstIp ≠ "255.255.255.255")).filter
    (fun r => !(strStartsWith r.dstIp "ff02::")))

/-- The start-time adjustment of StatisticalModel.__init__ (the block guarded
by stats.start_time > 0): shift both reference timestamp columns by
stats.start_time and keep only probe records with START_TIME at or after
stats.start_time.  When the guard fails both datasets pass unchanged. -/
def applyStartTime (s : Nat) (flows ref : List (Row String)) :
    List (Row String) × List (Row String) :=
  if 0 < s then
    (flows.filter (fun r => s ≤ r.startTime),
     ref.map (fun r => { r with startTime := r.startTime + s, endTime := r.endTime + s }))
  else
    (flows, ref)

/-- The dataset preparation of StatisticalModel.__init__ without the optional
merge step: the start-time adjustment followed by _filter_multicast on the
probe flows.  Returns (probe flows, reference). -/
def smInitBase (s : Nat) (flows ref : List (Row String)) :
    List (Row String) × List (Row String) :=
  let p := applyStartTime s flows ref
  (filterMulticast p.1, p.2)

/-! ### StatisticalModel._merge_flows -/

/-- StatisticalModel.FLOW_KEY of a record:
(SRC_IP, DST_IP, SRC_PORT, DST_PORT, PROTOCOL). -/
def smKey {α : Type} (r : Row α) : α × α × Nat × Nat × Nat :=
  (r.srcIp, r.dstIp, r.srcPort, r.dstPort, r.protocol)

/-- Lexicographic order on statistical-model flow keys, mirroring the sorted
group order of pandas groupby over the FLOW_KEY columns. -/
def smKeyLe (a b : String × String × Nat × Nat × Nat) : Bool :=
  if a.1 ≠ b.1 then decide (a.1 < b.1)
  else if a.2.1 ≠ b.2.1 then decide (a.2.1 < b.2.1)
  else if a.2.2.1 ≠ b.2.2.1 then decide (a.2.2.1 < b.2.2.1)
  else if a.2.2.2.1 ≠ b.2.2.2.1 then decide (a.2.2.2.1 < b.2.2.2.1)
  else decide (a.2.2.2.2 ≤ b.2.2.2.2)

/-- A probe record after _merge_flows: the CSV columns plus the FLOW_COUNT
column recording the size of the merged group. -/
structure MRow (α : Type) extends Row α where
  flowCount : Nat
deriving DecidableEq, Repr

/-- Aggregation of one FLOW_KEY group in _merge_flows, per AGGREGATE_FLOWS:
START_TIME min, END_TIME max, PACKETS sum, BYTES sum, and FLOW_COUNT is the
group size. -/
def smAggGroup {α : Type} (k : α × α × Nat × Nat × Nat) (g : List (Row α)) : MRow α :=
  { startTime := listMinD (g.map (·.startTime))
    endTime := listMaxD (g.map (·.endTime))
    protocol := k.2.2.2.2
    srcIp := k.1
    dstIp := k.2.1
    srcPort := k.2.2.1
    dstPort := k.2.2.2.1
    packets := (g.map (·.packets)).sum
    bytes := (g.map (·.bytes)).sum
    flowCount := g.length }

/-- The FLOW_KEY aggregation step of StatisticalModel._merge_flows (the
groupby/aggregate over FLOW_KEY plus the FLOW_COUNT column).  Group keys are
enumerated in the sorted order pandas produces for its default groupby. -/
def mergeFlows (rows : List (Row String)) : List (MRow String) :=
  (List.insertionSort (fun a b => smKeyLe a b = true) (firstUniq (rows.map smKey))).map
    (fun k => smAggGroup k (rows.filter (fun r => decide (smKey r = k))))

/-- The direction-invariant key of a merged record, per the swap_cond block
of _merge_flows: when SRC_IP is greater than DST_IP the source and
destination columns (addresses and ports) are swapped; PROTOCOL completes
the key (DIR_INVARIANT_FLOW_KEY). -/
def invKey (r : MRow String) : String × String × Nat × Nat × Nat :=
  if r.dstIp < r.srcIp then (r.dstIp, r.srcIp, r.dstPort, r.srcPort, r.protocol)
  else (r.srcIp, r.dstIp, r.srcPort, r.dstPort, r.protocol)

/-- The biflow timestamp correction of _merge_flows: every record receives
the min START_TIME and max END_TIME of its direction-invariant group (the
groupby transform), keeping the row set otherwise unchanged. -/
def biflowCorrect (rows : List (MRow String)) : List (MRow String) :=
  rows.map (fun r =>
    let g := rows.filter (fun x => decide (invKey x = invKey r))
    { r with
      startTime := listMinD (g.map (·.startTime))
      endTime := listMaxD (g.map (·.endTime)) })

/-- StatisticalModel._merge_flows: the FLOW_KEY aggregation, followed by the
biflow timestamp correction when requested. -/
def mergeFlowsFull (biflowsTsCorrection : Bool) (rows : List (Row String)) :
    List (MRow String) :=
  let m := mergeFlows rows
  if biflowsTsCorrection then biflowCorrect m else m

/-! ### Segments and segment filtering (statistical_model.py) -/

/-- SMTimeSegment from sm_data_types.py after the timestamp conversion at the
top of _filter_time_segment: both bounds are optional UTC milliseconds.  The
end bound is named endT because end is reserved in Lean. -/
structure SMTimeSegment where
  start : Option Nat
  endT : Option Nat
deriving DecidableEq, Repr

/-- The time mask of StatisticalModel._filter_time_segment for one record:
with both bounds, START_TIME at or above the start and END_TIME at or below
the end; with one bound, only that comparison.  With no bound set the source
compares against Python None and raises, embedded as none. -/
def timeSegMatch {α : Type} (seg : SMTimeSegment) (r : Row α) : Option Bool :=
  match seg.start, seg.endT with
  | some s, some e => some (decide (s ≤ r.startTime) && decide (r.endTime ≤ e))
  | some s, none => some (decide (s ≤ r.startTime))
  | none, some e => some (decide (r.endTime ≤ e))
  | none, none => none

/-- StatisticalModel._filter_time_segment: the identical mask expression is
evaluated over the probe rows and over the reference rows, and the probe
mask is also returned for the complement check. -/
def filterTimeSegment {α : Type} (seg : SMTimeSegment) (flows ref : List (Row α)) :
    Option (List (Row α) × List (Row α) × List Bool) :=
  match seg.start, seg.endT with
  | none, none => none
  | _, _ =>
    let mask := fun (r : Row α) => (timeSegMatch seg r).getD false
    some (flows.filter mask, ref.filter mask, flows.map mask)

/-- An IP address as the replicator represents it: a tagged 32-bit or 128-bit
numeric value (FlowReplicator.IPv4Address / FlowReplicator.IPv6Address). -/
inductive IpAddr where
  | v4 (ip : Nat)
  | v6 (ip : Nat)
deriving DecidableEq, Repr

/-- An ip_network value: address family, network address and prefix length.
Membership below models the ipaddress library containment test. -/
structure Subnet where
  isV6 : Bool
  net : Nat
  plen : Nat
deriving DecidableEq, Repr

/-- Containment of an address in a subnet, as the ipaddress library decides
the in operator: false across families, otherwise equality of the network
prefixes. -/
def inSubnet (a : IpAddr) (s : Subnet) : Bool :=
  match a with
  | .v4 ip => !s.isV6 && decide (ip / 2 ^ (32 - s.plen) = s.net / 2 ^ (32 - s.plen))
  | .v6 ip => s.isV6 && decide (ip / 2 ^ (128 - s.plen) = s.net / 2 ^ (128 - s.plen))

/-- SMSubnetSegment from sm_data_types.py: optional source subnet, optional
destination subnet, bidirectional flag. -/
structure SMSubnetSegment where
  source : Option Subnet
  dest : Option Subnet
  bidir : Bool
deriving DecidableEq, Repr

/-- The subnet mask of StatisticalModel._filter_subnet_segment for one
record, case for case as in the source: both subnets, only source, only
destination, each with its bidirectional variant.  With neither subnet set
the source evaluates membership in Python None and raises, embedded as
none. -/
def subnetSegMatch (seg : SMSubnetSegment) (r : Row IpAddr) : Option Bool :=
  match seg.source, seg.dest with
  | some s, some d =>
    if seg.bidir then
      some ((inSubnet r.srcIp s && inSubnet r.dstIp d)
        || (inSubnet r.srcIp d && inSubnet r.dstIp s))
    else
      some (inSubnet r.srcIp s && inSubnet r.dstIp d)
  | some s, none =>
    if seg.bidir then some (inSubnet r.srcIp s || inSubnet r.dstIp s)
    else some (inSubnet r.srcIp s)
  | none, some d =>
    if seg.bidir then some (inSubnet r.srcIp d || inSubnet r.dstIp d)
    else some (inSubnet r.dstIp d)
  | none, none => none

/-- StatisticalModel._filter_subnet_segment: the identical mask expression is
evaluated over the probe rows and over the reference rows. -/
def filterSubnetSegment (seg : SMSubnetSegment) (flows ref : List (Row IpAddr)) :
    Option (List (Row IpAddr) × List (Row IpAddr) × List Bool) :=
  match seg.source, seg.dest with
  | none, none => none
  | _, _ =>
    let mask := fun (r : Row IpAddr) => (subnetSegMatch seg r).getD false
    some (flows.filter mask, ref.filter mask, flows.map mask)

/-- A record with source and destination swapped: SRC_IP with DST_IP and
SRC_PORT with DST_PORT. -/
def swapDir {α : Type} (r : Row α) : Row α :=
  { r with srcIp := r.dstIp, dstIp := r.srcIp, srcPort := r.dstPort, dstPort := r.srcPort }

/-! ### Metric outcomes (StatisticalModel.validate and SMTestOutcome)

The relative difference at line 214 of statistical_model.py is
abs(np.int64(value) - np.int64(reference)) / reference.  The subtraction and
the absolute value wrap in 64-bit twos-complement arithmetic; the division is numpy
true division, which on a zero divisor emits a warning and returns float
infinity (or NaN when the numerator is also zero) instead of raising. -/

/-- Wrap an integer into the value range of numpy int64. -/
def i64 (x : Int) : Int :=
  (x + 2 ^ 63) % 2 ^ 64 - 2 ^ 63

/-- Truncation toward zero, as np.int64 converts a float value. -/
def truncQ (q : ℚ) : Int :=
  if 0 ≤ q then ⌊q⌋ else ⌈q⌉

/-- The value domain of the computed relative difference: a finite float,
positive or negative infinity, or NaN. -/
inductive RDiff where
  | finite (q : ℚ)
  | inf
  | negInf
  | nan
deriving DecidableEq, Repr

/-- The relative difference expression of StatisticalModel.validate:
abs(np.int64(value) - np.int64(reference)) / reference with numpy semantics.
Both int64 casts truncate, the subtraction and abs wrap in int64, and a zero
reference yields NaN for a zero numerator and a signed infinity otherwise. -/
def relDiff (value reference : ℚ) : RDiff :=
  let num : Int := i64 |i64 (i64 (truncQ value) - i64 (truncQ reference))|
  if reference = 0 then
    if num = 0 then RDiff.nan
    else if 0 < num then RDiff.inf
    else RDiff.negInf
  else RDiff.finite ((num : ℚ) / reference)

/-- Comparison diff <= tolerance as IEEE floats order the RDiff domain:
NaN compares false, positive infinity exceeds every tolerance, negative
infinity is below every tolerance. -/
def rdiffLe (d : RDiff) (tol : ℚ) : Bool :=
  match d with
  | .finite q => decide (q ≤ tol)
  | .inf => false
  | .negInf => true
  | .nan => false

/-- SMTestOutcome restricted to the fields the pass decision reads: the
metric tolerance (SMMetric.diff), the observed and reference values, and the
computed relative difference. -/
structure SMTestOutcome where
  value : ℚ
  reference : ℚ
  diff : RDiff
  tol : ℚ
deriving DecidableEq

/-- Construction of the SMTestOutcome appended by StatisticalModel.validate
for one metric: the diff field is the relative-difference expression. -/
def mkOutcome (value reference tol : ℚ) : SMTestOutcome :=
  { value := value, reference := reference, diff := relDiff value reference, tol := tol }

/-- SMTestOutcome.is_passing: the computed relative difference is at most the
metric tolerance. -/
def SMTestOutcome.isPassing (o : SMTestOutcome) : Bool :=
  rdiffLe o.diff o.tol

/-! ### FlowReplicator address arithmetic

FlowReplicator.IPv4Address.__add__ and IPv6Address.__add__ reduce the sum
with a while loop that subtracts the family modulus while the value is at or
above it; wrapLoop is that loop. -/

/-- The overflow while loop of the custom address types: subtract m from x
while m ≤ x.  For a positive modulus this is reduction modulo m. -/
def wrapLoop (m x : Nat) : Nat :=
  if h : 0 < m ∧ m ≤ x then wrapLoop m (x - m) else x
termination_by x
decreasing_by exact Nat.sub_lt (Nat.lt_of_lt_of_le h.1 h.2) h.1

/-- FlowReplicator.IPv4Address.__add__: add the offset and wrap at 2 ^ 32. -/
def ipv4Add (addr off : Nat) : Nat :=
  wrapLoop (2 ^ 32) (addr + off)

/-- FlowReplicator.IPv6Address.__add__: the offset is scaled by 2 ^ 96
before the addition, and the sum wraps at 2 ^ 128. -/
def ipv6Add (addr off : Nat) : Nat :=
  wrapLoop (2 ^ 128) (addr + 2 ^ 96 * off)

/-- Offset addition on a tagged address, dispatching to the family-specific
custom __add__. -/
def IpAddr.addOff : IpAddr → Nat → IpAddr
  | .v4 a, off => .v4 (ipv4Add a off)
  | .v6 a, off => .v6 (ipv6Add a off)

/-! ### FlowReplicator configuration parsing -/

/-- Failures raised while parsing a replicator configuration
(FlowReplicatorException variants plus the IndexError that escapes
_parse_config_item when a recognized modifier carries no digits). -/
inductive RepConfigError where
  | unsupportedModifier (s : String)
  | indexError
  | badKeys
deriving DecidableEq, Repr

/-- The first maximal run of decimal digits in a character list; models
re.findall of one-or-more digits, taking the first match. -/
def firstDigitRun : List Char → Option (List Char)
  | [] => none
  | c :: cs => if c.isDigit then some (c :: cs.takeWhile (·.isDigit)) else firstDigitRun cs

/-- Decimal value of a digit list, as int() reads the matched digits. -/
def natOfDigits (ds : List Char) : Nat :=
  ds.foldl (fun n c => 10 * n + (c.toNat - 48)) 0

/-- FlowReplicator._parse_config_item on the looked-up value of one
srcip/dstip entry: an absent entry or the literal None string parses to no
modifier; a value starting with addConstant or addOffset parses its first
digit run into an IpAddConstant (an empty digit run escapes as IndexError);
anything else raises the unsupported-modifier FlowReplicatorException. -/
def parseConfigItem (v : Option String) : Except RepConfigError (Option Nat) :=
  match v with
  | none => .ok none
  | some s =>
    if s = "None" then .ok none
    else if strStartsWith s "addConstant" || strStartsWith s "addOffset" then
      match firstDigitRun s.data with
      | some ds => .ok (some (natOfDigits ds))
      | none => .error .indexError
    else .error (.unsupportedModifier s)

/-- Classification of a modifier entry the parser rejects as unsupported: a
present string that starts with neither addConstant nor addOffset and is not
the literal None. -/
def isUnsupportedMod : Option String → Bool
  | none => false
  | some s => !strStartsWith s "addConstant" && !strStartsWith s "addOffset"
      && decide (s ≠ "None")

/-- Classification of a modifier entry whose parse does not escape with the
digit-extraction IndexError: it either parses to a modifier or raises the
unsupported-modifier error. -/
def parseOkOrUnsupported (v : Option String) : Bool :=
  match parseConfigItem v with
  | .ok _ => true
  | .error (.unsupportedModifier _) => true
  | .error _ => false

/-- The loopOnly entry of a unit dictionary: the string All, a single index,
or a list of indices. -/
inductive LoopOnly where
  | all
  | one (n : Int)
  | listOf (l : List Int)
deriving DecidableEq, Repr

/-- One entry of the units list of a raw configuration dictionary. -/
structure RawUnit where
  srcip : Option String
  dstip : Option String
  loopOnly : LoopOnly
deriving DecidableEq, Repr

/-- The loop entry of a raw configuration dictionary. -/
structure RawLoop where
  srcip : Option String
  dstip : Option String
deriving DecidableEq, Repr

/-- A raw configuration dictionary: the units list, the optional loop entry,
and whether any key other than units and loop is present. -/
structure RawConfig where
  units : List RawUnit
  loop : Option RawLoop
  extraKeys : Bool
deriving DecidableEq, Repr

/-- A parsed replication unit (dataclass ReplicatorUnit): optional source and
destination address offsets and the normalized loopOnly index set. -/
structure ReplicatorUnit where
  srcip : Option Nat
  dstip : Option Nat
  loopOnly : List Int
deriving DecidableEq, Repr

/-- A parsed replicator configuration (dataclass ReplicatorConfig). -/
structure ReplicatorConfig where
  units : List ReplicatorUnit
  loop : ReplicatorUnit
deriving DecidableEq, Repr

/-- Normalization of the loopOnly entry in FlowReplicator._normalize_config:
All becomes the empty set, a single integer a singleton, a list its set of
members. -/
def normLoopOnly : LoopOnly → List Int
  | .all => []
  | .one n => [n]
  | .listOf l => l

/-- The unit loop of FlowReplicator._normalize_config: a unit whose nonempty
loopOnly set lies inside the ignored loops is skipped before its modifiers
are parsed; every other unit has srcip then dstip parsed. -/
def normUnits (ignoreLoops : List Int) : List RawUnit → Except RepConfigError (List ReplicatorUnit)
  | [] => .ok []
  | u :: us =>
    let lo := normLoopOnly u.loopOnly
    if decide (lo ≠ []) && lo.all (fun n => n ∈ ignoreLoops) then
      normUnits ignoreLoops us
    else do
      let s ← parseConfigItem u.srcip
      let d ← parseConfigItem u.dstip
      let rest ← normUnits ignoreLoops us
      .ok (⟨s, d, lo⟩ :: rest)

/-- FlowReplicator._normalize_config, run by __init__ before any replication:
reject unknown top-level keys, parse every non-skipped unit, then parse the
loop entry. -/
def normalizeConfig (ignoreLoops : List Int) (cfg : RawConfig) :
    Except RepConfigError ReplicatorConfig := do
  if cfg.extraKeys then
    .error .badKeys
  else
    let units ← normUnits ignoreLoops cfg.units
    let lp := cfg.loop.getD ⟨none, none⟩
    let s ← parseConfigItem lp.srcip
    let d ← parseConfigItem lp.dstip
    .ok ⟨units, ⟨s, d, []⟩⟩

/-! ### FlowReplicator replication pipeline

FlowReplicator.FLOW_KEY is (PROTOCOL, SRC_IP, DST_IP, SRC_PORT, DST_PORT).
The helper columns ORIG_INDEX, _SRC_IP_OFFSET, _DST_IP_OFFSET, _FLOW_LEN and
_START_OFFSET become explicit record fields.  The source subtracts the
uint64 timestamp columns only where the minuend is at least the subtrahend
(END_TIME minus START_TIME under the record invariant, START_TIME minus the
dataset minimum), so Nat subtraction coincides with the uint64 column
arithmetic there. -/

/-- A source record inside _replicate, after the helper columns are added:
_FLOW_LEN and _START_OFFSET are the multiplier-scaled, truncated lengths and
offsets, _SRC_IP_OFFSET and _DST_IP_OFFSET accumulate address offsets, and
ORIG_INDEX is the original row index. -/
structure RRow where
  startTime : Nat
  endTime : Nat
  protocol : Nat
  srcIp : IpAddr
  dstIp : IpAddr
  srcPort : Nat
  dstPort : Nat
  packets : Nat
  bytes : Nat
  origIndex : Nat
  srcOff : Nat
  dstOff : Nat
  flowLen : Nat
  startOff : Nat
deriving DecidableEq, Repr

/-- A record of a single-loop result after the within-loop groupby dropped
the _FLOW_LEN and _START_OFFSET columns. -/
structure LRow where
  startTime : Nat
  endTime : Nat
  protocol : Nat
  srcIp : IpAddr
  dstIp : IpAddr
  srcPort : Nat
  dstPort : Nat
  packets : Nat
  bytes : Nat
  origIndex : Nat
  srcOff : Nat
  dstOff : Nat
deriving DecidableEq, Repr

/-- FlowReplicator.FLOW_KEY of a single-loop record. -/
def repKeyOf (r : LRow) : Nat × IpAddr × IpAddr × Nat × Nat :=
  (r.protocol, r.srcIp, r.dstIp, r.srcPort, r.dstPort)

/-- Forgetting the helper columns of a single-loop record, as the final
column selection of FlowReplicator.replicate does. -/
def toRowIp (r : LRow) : Row IpAddr :=
  { startTime := r.startTime, endTime := r.endTime, protocol := r.protocol,
    srcIp := r.srcIp, dstIp := r.dstIp, srcPort := r.srcPort, dstPort := r.dstPort,
    packets := r.packets, bytes := r.bytes }

/-- The helper-column setup of FlowReplicator._replicate: ORIG_INDEX from the
row position, zero address offsets, and _FLOW_LEN and _START_OFFSET from the
original timestamps scaled by the time multiplier and truncated to uint64. -/
def prepareFlows (tm : ℚ) (loopStart : Nat) (flows : List (Row IpAddr)) : List RRow :=
  flows.enum.map (fun p =>
    { startTime := p.2.startTime, endTime := p.2.endTime, protocol := p.2.protocol,
      srcIp := p.2.srcIp, dstIp := p.2.dstIp, srcPort := p.2.srcPort,
      dstPort := p.2.dstPort, packets := p.2.packets, bytes := p.2.bytes,
      origIndex := p.1, srcOff := 0, dstOff := 0,
      flowLen := ⌊((p.2.endTime - p.2.startTime : Nat) : ℚ) * tm⌋₊,
      startOff := ⌊((p.2.startTime - loopStart : Nat) : ℚ) * tm⌋₊ })

/-- FlowReplicator._process_replication_unit: one unit adds its own source
and destination offsets (when configured) on top of the offsets already in
the records. -/
def processReplicationUnit (unit : ReplicatorUnit) (flows : List RRow) : List RRow :=
  flows.map (fun r =>
    { r with srcOff := r.srcOff + unit.srcip.getD 0, dstOff := r.dstOff + unit.dstip.getD 0 })

/-- The grouping key of the within-loop merge in _process_single_loop:
FLOW_KEY plus ORIG_INDEX, _SRC_IP_OFFSET and _DST_IP_OFFSET. -/
def loopMergeKey (r : RRow) : (Nat × IpAddr × IpAddr × Nat × Nat) × Nat × Nat × Nat :=
  ((r.protocol, r.srcIp, r.dstIp, r.srcPort, r.dstPort), r.origIndex, r.srcOff, r.dstOff)

/-- Aggregation of one within-loop merge group per AGGREGATE_SPLIT_FLOWS:
min START_TIME, max END_TIME, summed PACKETS and BYTES; the key columns come
from the group key and the helper length columns are dropped. -/
def aggLoopGroup (k : (Nat × IpAddr × IpAddr × Nat × Nat) × Nat × Nat × Nat)
    (g : List RRow) : LRow :=
  { startTime := listMinD (g.map (·.startTime))
    endTime := listMaxD (g.map (·.endTime))
    protocol := k.1.1
    srcIp := k.1.2.1
    dstIp := k.1.2.2.1
    srcPort := k.1.2.2.2.1
    dstPort := k.1.2.2.2.2
    packets := (g.map (·.packets)).sum
    bytes := (g.map (·.bytes)).sum
    origIndex := k.2.1
    srcOff := k.2.2.1
    dstOff := k.2.2.2 }

/-- FlowReplicator._process_single_loop: set the loop timestamps from the
loop time offset, add the loop-level address offsets scaled by the loop
index, run every unit active in this loop, concatenate, merge records that
share the within-loop key (a groupby with sorting disabled), and order the
result by ORIG_INDEX. -/
def processSingleLoop (cfg : ReplicatorConfig) (loopN : Nat) (globalStart loopLength : Nat)
    (flows : List RRow) : List LRow :=
  let timeOffset := globalStart + loopN * loopLength
  let srcipOffset := loopN * cfg.loop.srcip.getD 0
  let dstipOffset := loopN * cfg.loop.dstip.getD 0
  let shifted := flows.map (fun r =>
    let st := timeOffset + r.startOff
    { r with startTime := st, endTime := st + r.flowLen,
             srcOff := r.srcOff + srcipOffset, dstOff := r.dstOff + dstipOffset })
  let replicated :=
    ((cfg.units.filter (fun u => u.loopOnly.isEmpty || decide ((loopN : Int) ∈ u.loopOnly))).map
      (fun u => processReplicationUnit u shifted)).flatten
  let grouped := (firstUniq (replicated.map loopMergeKey)).map
    (fun k => aggLoopGroup k (replicated.filter (fun r => decide (loopMergeKey r = k))))
  List.insertionSort (fun a b => a.origIndex ≤ b.origIndex) grouped

/-- The loop iteration of FlowReplicator._replicate: every loop index below
the loop count that is not ignored contributes one single-loop result, and
the results are concatenated. -/
def replicateLoops (cfg : ReplicatorConfig) (ignoreLoops : List Int) (loops : Nat)
    (globalStart loopLength : Nat) (flows : List RRow) : List LRow :=
  (((List.range loops).filter (fun (n : Nat) => decide ((n : Int) ∉ ignoreLoops))).map
    (fun n => processSingleLoop cfg n globalStart loopLength flows)).flatten

/-! ### Cross-loop merging (FlowReplicator._merge_func) -/

/-- The GAP column of _merge_func: for each record the start time of the
following record minus this record END_TIME; the last record has no
follower, so its gap is NaN, embedded as none.  The subtraction happens
after an index alignment that promotes the column to float, so it is signed.
-/
def gapsOf : List LRow → List (Option Int)
  | [] => []
  | [_] => [none]
  | a :: b :: rest => some ((b.startTime : Int) - (a.endTime : Int)) :: gapsOf (b :: rest)

/-- The NaN-aware comparison GAP >= inactive_timeout of _merge_func: a NaN
gap compares false. -/
def gapGE (g : Option Int) (t : Int) : Bool :=
  match g with
  | none => false
  | some v => decide (t ≤ v)

/-- The AGGR_NO assignment loop of _merge_func: each record receives the
current counter, and the counter advances after a record whose gap reaches
the timeout. -/
def aggrNosGo (t : Int) (cur : Nat) : List (Option Int) → List Nat
  | [] => []
  | g :: gs => cur :: aggrNosGo t (if gapGE g t then cur + 1 else cur) gs

/-- Python truthiness of the stored inactive timeout: None and a zero value
are falsy, so the splitting loop runs only for a nonzero stored timeout. -/
def timeoutTruthy (timeout : Option Int) : Bool :=
  match timeout with
  | none => false
  | some t => decide (t ≠ 0)

/-- Aggregation of one (FLOW_KEY, AGGR_NO) sub-group of _merge_func per
AGGREGATE_SPLIT_FLOWS, keyed by the flow key. -/
def aggCsv (k : Nat × IpAddr × IpAddr × Nat × Nat) (g : List LRow) : Row IpAddr :=
  { startTime := listMinD (g.map (·.startTime))
    endTime := listMaxD (g.map (·.endTime))
    protocol := k.1
    srcIp := k.2.1
    dstIp := k.2.2.1
    srcPort := k.2.2.2.1
    dstPort := k.2.2.2.2
    packets := (g.map (·.packets)).sum
    bytes := (g.map (·.bytes)).sum }

/-- FlowReplicator._merge_func on one FLOW_KEY group, in the order the rows
reach the groupby: groups of more than one record compute the gap column,
assign AGGR_NO (all zero when the stored timeout is falsy), and aggregate by
(FLOW_KEY, AGGR_NO); smaller groups pass through.  The output is restricted
to the CSV columns, as the caller of _merge_across_loop does. -/
def mergeFunc (timeout : Option Int) (group : List LRow) : List (Row IpAddr) :=
  if 1 < group.length then
    let gs := gapsOf group
    let nos := if timeoutTruthy timeout then aggrNosGo (timeout.getD 0) 0 gs
               else gs.map (fun _ => 0)
    let tagged := group.zip nos
    (firstUniq (tagged.map (fun p => (repKeyOf p.1, p.2)))).map (fun k =>
      aggCsv k.1 (((tagged.filter (fun p => decide ((repKeyOf p.1, p.2) = k))).map Prod.fst)))
  else group.map toRowIp

/-- FlowReplicator._merge_across_loop: group the replicated records by
FLOW_KEY and apply _merge_func to every group. -/
def mergeAcrossLoop (timeout : Option Int) (flows : List LRow) : List (Row IpAddr) :=
  ((firstUniq (flows.map repKeyOf)).map (fun k =>
    mergeFunc timeout (flows.filter (fun r => decide (repKeyOf r = k))))).flatten

/-- FlowReplicator.replicate after the input CSV is loaded and its addresses
parsed: compute the loop frame from the dataset extremes and the time
multiplier (the reciprocal of the speed multiplier), replicate every loop,
apply the accumulated address offsets with the wrap-around addition, then
either merge across loops (storing the second-based timeout in milliseconds
with -1 meaning None) or keep the concatenation, restricted to the CSV
columns. -/
def replicate (cfg : ReplicatorConfig) (ignoreLoops : List Int) (loops : Nat)
    (mergeAcrossLoops : Bool) (inactiveTimeout : Int) (speedMultiplier : ℚ)
    (flows : List (Row IpAddr)) : List (Row IpAddr) :=
  let tm := 1 / speedMultiplier
  let loopStart := listMinD (flows.map (·.startTime))
  let loopEnd := listMaxD (flows.map (·.endTime))
  let loopLength := ⌊((loopEnd - loopStart : Nat) : ℚ) * tm⌋₊
  let rep := replicateLoops cfg ignoreLoops loops loopStart loopLength
    (prepareFlows tm loopStart flows)
  let withIps := rep.map (fun r =>
    { r with srcIp := r.srcIp.addOff r.srcOff, dstIp := r.dstIp.addOff r.dstOff })
  if mergeAcrossLoops then
    mergeAcrossLoop (if -1 < inactiveTimeout then some (inactiveTimeout * 1000) else none) withIps
  else
    withIps.map toRowIp

/-! ### Spec-side partition for the cross-loop merge

Stated from the specification words for claim C3: partition the sequence
into sub-groups by cutting wherever the gap between the next start and the
previous end reaches the timeout. -/

/-- Partition of a flow-key group at every position whose gap (next record
start minus previous record end) is at least the timeout, following the
specification text of the cross-loop merger. -/
def specSplitAtGaps (t : Int) : List LRow → List (List LRow)
  | [] => []
  | [r] => [[r]]
  | a :: b :: rest =>
    let tailSplit := specSplitAtGaps t (b :: rest)
    if t ≤ (b.startTime : Int) - (a.endTime : Int) then
      [a] :: tailSplit
    else
      match tailSplit with
      | [] => [[a]]
      | g :: gs => (a :: g) :: gs

/-! ### Concrete example data used by counterexamples and witnesses -/

/-- A reference record whose destination is the IPv4 broadcast address. -/
def exBroadcastRef : Row String :=
  { startTime := 1, endTime := 2, protocol := 17, srcIp := "10.0.0.1",
    dstIp := "255.255.255.255", srcPort := 68, dstPort := 67, packets := 1, bytes := 300 }

/-- A probe record between the string addresses a and b. -/
def exRowA : Row String :=
  { startTime := 1, endTime := 2, protocol := 6, srcIp := "a", dstIp := "b",
    srcPort := 1, dstPort := 2, packets := 3, bytes := 4 }

/-- A probe record between the string addresses c and d. -/
def exRowB : Row String :=
  { startTime := 10, endTime := 20, protocol := 17, srcIp := "c", dstIp := "d",
    srcPort := 5, dstPort := 6, packets := 7, bytes := 8 }

/-- The subnet 10.0.0.0/8 used by the subnet-segment examples. -/
def exSubnet : Subnet :=
  { isV6 := false, net := 10 * 2 ^ 24, plen := 8 }

/-- A source-only, non-bidirectional subnet segment over 10.0.0.0/8. -/
def exSubnetSeg : SMSubnetSegment :=
  { source := some exSubnet, dest := none, bidir := false }

/-- A converted record from 10.0.0.1 to 192.168.0.1. -/
def exSubnetRow : Row IpAddr :=
  { startTime := 0, endTime := 5, protocol := 6, srcIp := .v4 (10 * 2 ^ 24 + 1),
    dstIp := .v4 (192 * 2 ^ 24 + 168 * 2 ^ 16 + 1), srcPort := 1000, dstPort := 80,
    packets := 2, bytes := 120 }

/-- A single-loop record of one fixed flow key with given timestamps. -/
def exLRow (st en : Nat) : LRow :=
  { startTime := st, endTime := en, protocol := 6, srcIp := .v4 1, dstIp := .v4 2,
    srcPort := 10, dstPort := 20, packets := 5, bytes := 100, origIndex := 0,
    srcOff := 0, dstOff := 0 }

/-- The two-record flow-key group of the cross-loop merge example: the first
record ends at 1000 and the second starts at 1500, a gap of 500. -/
def exGapGroup : List LRow :=
  [exLRow 900 1000, exLRow 1500 1600]

/-- A two-unit replicator configuration whose first unit carries the
unsupported addCounter modifier in its dstip entry, while every other
modifier entry parses. -/
def exBadConfig : RawConfig :=
  { units := [⟨some "addConstant(3)", some "addCounter(10)", LoopOnly.all⟩,
              ⟨some "addOffset(7)", none, LoopOnly.one 2⟩],
    loop := some ⟨some "None", none⟩,
    extraKeys := false }

/-! ## Helper lemmas -/

theorem wrapLoop_eq_mod (m : Nat) (hm : 0 < m) : ∀ x, wrapLoop m x = x % m := by
  intro x
  induction x using Nat.strong_induction_on with
  | _ x ih =>
    rw [wrapLoop]
    split
    · next h =>
      rw [ih (x - m) (Nat.sub_lt (Nat.lt_of_lt_of_le h.1 h.2) h.1)]
      exact (Nat.mod_eq_sub_mod h.2).symm
    · next h =>
      have hx : x < m := by
        rcases Nat.lt_or_ge x m with hlt | hge
        · exact hlt
        · exact absurd ⟨hm, hge⟩ h
      exact (Nat.mod_eq_of_lt hx).symm

theorem foldl_min_le_init : ∀ (l : List Nat) (a : Nat), l.foldl Nat.min a ≤ a := by
  intro l
  induction l with
  | nil => intro a; exact Nat.le_refl a
  | cons x xs ih =>
    intro a
    exact Nat.le_trans (ih (Nat.min a x)) (Nat.min_le_left a x)

theorem foldl_min_le_mem :
    ∀ (l : List Nat) (a x : Nat), x ∈ l → l.foldl Nat.min a ≤ x := by
  intro l
  induction l with
  | nil => intro a x hx; simp at hx
  | cons y ys ih =>
    intro a x hx
    rcases List.mem_cons.mp hx with h | h
    · subst h
      exact Nat.le_trans (foldl_min_le_init ys (Nat.min a x)) (Nat.min_le_right a x)
    · exact ih (Nat.min a y) x h

theorem le_foldl_max_init : ∀ (l : List Nat) (a : Nat), a ≤ l.foldl Nat.max a := by
  intro l
  induction l with
  | nil => intro a; exact Nat.le_refl a
  | cons x xs ih =>
    intro a
    exact Nat.le_trans (Nat.le_max_left a x) (ih (Nat.max a x))

theorem le_foldl_max_mem :
    ∀ (l : List Nat) (a x : Nat), x ∈ l → x ≤ l.foldl Nat.max a := by
  intro l
  induction l with
  | nil => intro a x hx; simp at hx
  | cons y ys ih =>
    intro a x hx
    rcases List.mem_cons.mp hx with h | h
    · subst h
      exact Nat.le_trans (Nat.le_max_right a x) (le_foldl_max_init ys (Nat.max a x))
    · exact ih (Nat.max a y) x h

theorem listMinD_le_of_mem {l : List Nat} {x : Nat} (hx : x ∈ l) : listMinD l ≤ x := by
  match l, hx with
  | y :: ys, hx =>
    rw [listMinD]
    rcases List.mem_cons.mp hx with h | h
    · exact h ▸ foldl_min_le_init ys y
    · exact foldl_min_le_mem ys y x h

theorem le_listMaxD_of_mem {l : List Nat} {x : Nat} (hx : x ∈ l) : x ≤ listMaxD l := by
  match l, hx with
  | y :: ys, hx =>
    rw [listMaxD]
    rcases List.mem_cons.mp hx with h | h
    · exact h ▸ le_foldl_max_init ys y
    · exact le_foldl_max_mem ys y x h

theorem mem_of_mem_firstUniq {α : Type} [DecidableEq α] :
    ∀ {l : List α} {x : α}, x ∈ firstUniq l → x ∈ l := by
  intro l
  induction l with
  | nil => intro x hx; simp [firstUniq] at hx
  | cons y ys ih =>
    intro x hx
    rw [firstUniq] at hx
    rcases List.mem_cons.mp hx with h | h
    · exact h ▸ List.mem_cons_self _ _
    · exact List.mem_cons_of_mem _ (ih (List.mem_filter.mp h).1)

theorem firstUniq_eq_self {α : Type} [DecidableEq α] :
    ∀ {l : List α}, l.Nodup → firstUniq l = l := by
  intro l
  induction l with
  | nil => intro; rfl
  | cons y ys ih =>
    intro h
    rcases List.nodup_cons.mp h with ⟨hy, hys⟩
    rw [firstUniq, ih hys, List.filter_eq_self.mpr]
    intro a ha
    simp only [ne_eq, decide_eq_true_eq]
    intro hEq
    exact hy (hEq ▸ ha)

/-! ## Claim theorems -/

/-- C5: adding a non-negative offset to an IPv4 address yields the sum
modulo 2 ^ 32; adding one to an IPv6 address scales the offset by 2 ^ 96 and
wraps modulo 2 ^ 128, leaving the low 96 bits unchanged; in particular an
offset added to ffff:ffff:ffff:ffff:: (the value 2 ^ 128 - 2 ^ 64) wraps
around instead of failing or truncating. -/
theorem c5_address_offset_wraparound :
    (∀ a off : Nat, ipv4Add a off = (a + off) % 2 ^ 32)
    ∧ (∀ a off : Nat, ipv6Add a off = (a + 2 ^ 96 * off) % 2 ^ 128)
    ∧ (∀ a off : Nat, ipv6Add a off % 2 ^ 96 = a % 2 ^ 96)
    ∧ ipv6Add (2 ^ 128 - 2 ^ 64) 1 = 2 ^ 96 - 2 ^ 64 := by
  have h4 : ∀ a off : Nat, ipv4Add a off = (a + off) % 2 ^ 32 := fun a off =>
    wrapLoop_eq_mod (2 ^ 32) (by norm_num) (a + off)
  have h6 : ∀ a off : Nat, ipv6Add a off = (a + 2 ^ 96 * off) % 2 ^ 128 := fun a off =>
    wrapLoop_eq_mod (2 ^ 128) (by norm_num) (a + 2 ^ 96 * off)
  refine ⟨h4, h6, ?_, ?_⟩
  · intro a off
    rw [h6, Nat.mod_mod_of_dvd _ (by norm_num : (2 : Nat) ^ 96 ∣ 2 ^ 128),
      Nat.add_mul_mod_self_left]
  · rw [h6]
    decide

/-- C1: the source computes abs(int64(value) - int64(reference)) / reference
without guarding a zero reference.  At reference zero the division silently
produces NaN (zero numerator) or infinity instead of raising a distinct
error, and the resulting SMTestOutcome is treated as an ordinary failing
result by is_passing.  This supports the code_bug verdict on the claim that
a zero reference must fail with an explicit error. -/
theorem c1_zero_reference_silent_nan_inf :
    relDiff 0 0 = RDiff.nan
    ∧ relDiff 5 0 = RDiff.inf
    ∧ (∀ tol : ℚ, (mkOutcome 0 0 tol).isPassing = false)
    ∧ (∀ tol : ℚ, (mkOutcome 5 0 tol).isPassing = false) := by
  have h0 : relDiff 0 0 = RDiff.nan := by decide
  have h5 : relDiff 5 0 = RDiff.inf := by decide
  refine ⟨h0, h5, ?_, ?_⟩
  · intro tol
    simp [mkOutcome, SMTestOutcome.isPassing, h0, rdiffLe]
  · intro tol
    simp [mkOutcome, SMTestOutcome.isPassing, h5, rdiffLe]

/-- C7: a record matches a time segment with both bounds set iff its
START_TIME is at least the segment start and its END_TIME is at most the
segment end; with a single bound only that comparison decides; and
_filter_time_segment filters the probe rows and the reference rows with the
same predicate (returning the probe mask). -/
theorem c7_time_segment_semantics :
    (∀ (lo hi : Nat) (r : Row String),
        timeSegMatch ⟨some lo, some hi⟩ r = some true ↔ lo ≤ r.startTime ∧ r.endTime ≤ hi)
    ∧ (∀ (lo : Nat) (r : Row String),
        timeSegMatch ⟨some lo, none⟩ r = some true ↔ lo ≤ r.startTime)
    ∧ (∀ (hi : Nat) (r : Row String),
        timeSegMatch ⟨none, some hi⟩ r = some true ↔ r.endTime ≤ hi)
    ∧ (∀ (lo hi : Nat) (flows ref : List (Row String)),
        filterTimeSegment ⟨some lo, some hi⟩ flows ref =
          some (flows.filter (fun r => (timeSegMatch ⟨some lo, some hi⟩ r).getD false),
                ref.filter (fun r => (timeSegMatch ⟨some lo, some hi⟩ r).getD false),
                flows.map (fun r => (timeSegMatch ⟨some lo, some hi⟩ r).getD false)))
    ∧ (∀ (lo : Nat) (flows ref : List (Row String)),
        filterTimeSegment ⟨some lo, none⟩ flows ref =
          some (flows.filter (fun r => (timeSegMatch ⟨some lo, none⟩ r).getD false),
                ref.filter (fun r => (timeSegMatch ⟨some lo, none⟩ r).getD false),
                flows.map (fun r => (timeSegMatch ⟨some lo, none⟩ r).getD false)))
    ∧ (∀ (hi : Nat) (flows ref : List (Row String)),
        filterTimeSegment ⟨none, some hi⟩ flows ref =
          some (flows.filter (fun r => (timeSegMatch ⟨none, some hi⟩ r).getD false),
                ref.filter (fun r => (timeSegMatch ⟨none, some hi⟩ r).getD false),
                flows.map (fun r => (timeSegMatch ⟨none, some hi⟩ r).getD false))) := by
  refine ⟨?_, ?_, ?_, ?_, ?_, ?_⟩
  · intro lo hi r
    simp [timeSegMatch]
  · intro lo r
    simp [timeSegMatch]
  · intro hi r
    simp [timeSegMatch]
  · intro lo hi flows ref
    rfl
  · intro lo flows ref
    rfl
  · intro hi flows ref
    rfl

/-- C8: with bidir set, swapping the source and destination of a record (addresses
together with ports) never changes the subnet-segment match; with bidir
unset there is a segment and a record where the swap flips the match (the
source-only segment 10.0.0.0/8 with a record from 10.0.0.1 to 192.168.0.1).
-/
theorem c8_subnet_bidir_symmetry :
    (∀ (seg : SMSubnetSegment) (r : Row IpAddr), seg.bidir = true →
        subnetSegMatch seg (swapDir r) = subnetSegMatch seg r)
    ∧ subnetSegMatch exSubnetSeg exSubnetRow = some true
    ∧ subnetSegMatch exSubnetSeg (swapDir exSubnetRow) = some false
    ∧ exSubnetSeg.bidir = false := by
  refine ⟨?_, by decide, by decide, rfl⟩
  intro seg r hb
  rcases seg with ⟨src, dst, bd⟩
  cases hb
  cases src <;> cases dst <;>
    simp [subnetSegMatch, swapDir, Bool.and_comm, Bool.or_comm]

/-- Witness for C8: the bidirectional hypothesis holds for a concrete
bidirectional segment, and the symmetry conclusion follows from the claim
theorem at that segment and the example record. -/
theorem c8_subnet_bidir_symmetry_witness :
    (⟨some exSubnet, none, true⟩ : SMSubnetSegment).bidir = true
    ∧ subnetSegMatch ⟨some exSubnet, none, true⟩ (swapDir exSubnetRow) =
        subnetSegMatch ⟨some exSubnet, none, true⟩ exSubnetRow :=
  ⟨rfl, c8_subnet_bidir_symmetry.1 ⟨some exSubnet, none, true⟩ exSubnetRow rfl⟩

/-- C10: with a positive generator start time the model shifts both
reference timestamp columns by it and keeps exactly the probe records whose
START_TIME is at least it; with start time zero both datasets pass through
unchanged; and this adjustment runs before the multicast filtering in the
initialization pipeline. -/
theorem c10_reference_shift_and_probe_drop :
    (∀ (s : Nat) (flows ref : List (Row String)), 0 < s →
        applyStartTime s flows ref =
          (flows.filter (fun r => decide (s ≤ r.startTime)),
           ref.map (fun r =>
             { r with startTime := r.startTime + s, endTime := r.endTime + s })))
    ∧ (∀ (flows ref : List (Row String)), applyStartTime 0 flows ref = (flows, ref))
    ∧ (∀ (s : Nat) (flows ref : List (Row String)),
        smInitBase s flows ref =
          (filterMulticast (applyStartTime s flows ref).1, (applyStartTime s flows ref).2)) := by
  refine ⟨?_, ?_, ?_⟩
  · intro s flows ref hs
    rw [applyStartTime, if_pos hs]
  · intro flows ref
    rfl
  · intro s flows ref
    rfl

/-- Witness for C10: the positive-start hypothesis at 5 and the instantiated
conclusion of the claim theorem. -/
theorem c10_reference_shift_witness :
    0 < 5
    ∧ applyStartTime 5 [exBroadcastRef] [exBroadcastRef] =
        ([exBroadcastRef].filter (fun r => decide (5 ≤ r.startTime)),
         [exBroadcastRef].map (fun r =>
           { r with startTime := r.startTime + 5, endTime := r.endTime + 5 })) :=
  ⟨by decide, c10_reference_shift_and_probe_drop.1 5 [exBroadcastRef] [exBroadcastRef] (by decide)⟩

/-- Counterexample for C2: a reference record whose destination is the
broadcast address 255.255.255.255 survives the model initialization
untouched, so the multicast/broadcast drop is not applied to the reference
dataset as the claim states. -/
theorem c2_counterexample :
    (smInitBase 0 [] [exBroadcastRef]).2 = [exBroadcastRef]
    ∧ exBroadcastRef.dstIp = "255.255.255.255" :=
  ⟨rfl, rfl⟩

/-- C2 amended: only the probe-side flows are filtered: a record survives
initialization on the probe side iff it survives the start-time step and its
destination is neither the IPv4 broadcast address nor an address starting
with ff02::, while the reference side is exactly the start-time-adjusted
reference, never multicast-filtered. -/
theorem c2_probe_side_multicast_filter :
    ∀ (s : Nat) (flows ref : List (Row String)) (r : Row String),
      (r ∈ (smInitBase s flows ref).1 ↔
        r ∈ (applyStartTime s flows ref).1 ∧ r.dstIp ≠ "255.255.255.255"
          ∧ strStartsWith r.dstIp "ff02::" = false)
      ∧ (smInitBase s flows ref).2 = (applyStartTime s flows ref).2 := by
  intro s flows ref r
  constructor
  · simp only [smInitBase, filterMulticast, List.mem_filter, Bool.not_eq_true',
      decide_eq_true_eq, ne_eq]
    tauto
  · rfl

theorem smAgg_map_of_nodup :
    ∀ (rows : List (Row String)), (rows.map smKey).Nodup →
      (rows.map smKey).map
        (fun k => smAggGroup k (rows.filter (fun r => decide (smKey r = k))))
      = rows.map (fun r => ({ toRow := r, flowCount := 1 } : MRow String)) := by
  intro rows
  induction rows with
  | nil => intro; rfl
  | cons r rs ih =>
    intro h
    have hsplit : (∀ x ∈ rs, ¬smKey x = smKey r) ∧ (List.map smKey rs).Nodup := by
      simpa using h
    rcases hsplit with ⟨hr, hrs⟩
    rw [List.map_cons, List.map_cons, List.map_cons]
    congr 1
    · have hfilter : rs.filter (fun x => decide (smKey x = smKey r)) = [] := by
        rw [List.filter_eq_nil_iff]
        intro a ha
        simp only [decide_eq_true_eq]
        exact hr a ha
      rw [List.filter_cons_of_pos (by simp), hfilter]
      rfl
    · refine (List.map_congr_left ?_).trans (ih hrs)
      intro k hk
      have hne : decide (smKey r = k) = false := by
        simp only [decide_eq_false_iff_not]
        intro hEq
        obtain ⟨x, hx, hxk⟩ := List.mem_map.mp hk
        exact hr x hx (hxk.trans hEq.symm)
      rw [List.filter_cons_of_neg (by simp [hne])]

/-- C6: merging a dataset whose flow keys are pairwise distinct returns, up
to the sorted group order, exactly the input records with a FLOW_COUNT of 1
added: nothing else changes and no record is added or removed. -/
theorem c6_merge_unique_keys_noop :
    ∀ rows : List (Row String), (rows.map smKey).Nodup →
      List.Perm (mergeFlows rows)
        (rows.map (fun r => ({ toRow := r, flowCount := 1 } : MRow String))) := by
  intro rows h
  rw [mergeFlows, firstUniq_eq_self h]
  have h2 := (List.perm_insertionSort (fun a b => smKeyLe a b = true) (rows.map smKey)).map
    (fun k => smAggGroup k (rows.filter (fun r => decide (smKey r = k))))
  rw [smAgg_map_of_nodup rows h] at h2
  exact h2

/-- Witness for C6: a two-record dataset with distinct flow keys satisfies
the uniqueness hypothesis, and merging it is a permutation of the records
with FLOW_COUNT 1. -/
theorem c6_merge_unique_keys_noop_witness :
    (([exRowA, exRowB].map smKey).Nodup)
    ∧ List.Perm (mergeFlows [exRowA, exRowB])
        ([exRowA, exRowB].map (fun r => ({ toRow := r, flowCount := 1 } : MRow String))) :=
  ⟨by decide, c6_merge_unique_keys_noop [exRowA, exRowB] (by decide)⟩

theorem parseConfigItem_unsupported (s : String)
    (h1 : strStartsWith s "addConstant" = false)
    (h2 : strStartsWith s "addOffset" = false)
    (h3 : s ≠ "None") :
    parseConfigItem (some s) = .error (.unsupportedModifier s) := by
  simp [parseConfigItem, h1, h2, h3]

theorem skip_condition_empty_ignore (lo : LoopOnly) :
    (decide (normLoopOnly lo ≠ []) &&
      (normLoopOnly lo).all (fun n => decide (n ∈ ([] : List Int)))) = false := by
  cases lo with
  | all => rfl
  | one n => simp [normLoopOnly]
  | listOf l => cases l <;> simp [normLoopOnly]

theorem isUnsupportedMod_parse (v : Option String) (h : isUnsupportedMod v = true) :
    ∃ s, v = some s ∧ parseConfigItem (some s) = .error (.unsupportedModifier s) := by
  cases v with
  | none => simp [isUnsupportedMod] at h
  | some s =>
    refine ⟨s, rfl, ?_⟩
    simp only [isUnsupportedMod, Bool.and_eq_true, Bool.not_eq_true', decide_eq_true_eq] at h
    exact parseConfigItem_unsupported s h.1.1 h.1.2 h.2

theorem parseConfigItem_unsup_inv (v : Option String) (s : String)
    (h : parseConfigItem v = .error (.unsupportedModifier s)) :
    isUnsupportedMod v = true := by
  cases v with
  | none => simp [parseConfigItem] at h
  | some s2 =>
    by_cases h1 : s2 = "None"
    · rw [parseConfigItem, if_pos h1] at h
      exact absurd h (by simp)
    · rw [parseConfigItem, if_neg h1] at h
      cases hAB : (strStartsWith s2 "addConstant" || strStartsWith s2 "addOffset") with
      | true =>
        rw [if_pos hAB] at h
        cases hd : firstDigitRun s2.data <;> rw [hd] at h <;> exact absurd h (by simp)
      | false =>
        have hA : strStartsWith s2 "addConstant" = false := by
          rcases Bool.or_eq_false_iff.mp hAB with ⟨hA, _⟩
          exact hA
        have hB : strStartsWith s2 "addOffset" = false := by
          rcases Bool.or_eq_false_iff.mp hAB with ⟨_, hB⟩
          exact hB
        simp [isUnsupportedMod, hA, hB, h1]

theorem parse_ok_of_not_unsupported (v : Option String)
    (hok : parseOkOrUnsupported v = true) (hbad : isUnsupportedMod v = false) :
    ∃ r, parseConfigItem v = .ok r := by
  cases hp : parseConfigItem v with
  | ok r => exact ⟨r, rfl⟩
  | error e =>
    cases e with
    | unsupportedModifier s =>
      rw [parseConfigItem_unsup_inv v s hp] at hbad
      exact absurd hbad (by simp)
    | indexError =>
      unfold parseOkOrUnsupported at hok
      rw [hp] at hok
      exact absurd hok (by simp)
    | badKeys =>
      unfold parseOkOrUnsupported at hok
      rw [hp] at hok
      exact absurd hok (by simp)

theorem normUnits_ok_of_all_ok : ∀ us : List RawUnit,
    (∀ u ∈ us, (∃ r, parseConfigItem u.srcip = .ok r)
      ∧ ∃ r, parseConfigItem u.dstip = .ok r) →
    ∃ l, normUnits [] us = .ok l := by
  intro us
  induction us with
  | nil => intro; exact ⟨[], rfl⟩
  | cons u us ih =>
    intro h
    obtain ⟨⟨r1, hr1⟩, r2, hr2⟩ := h u (List.mem_cons_self ..)
    obtain ⟨rest, hrest⟩ := ih (fun v hv => h v (List.mem_cons_of_mem _ hv))
    refine ⟨⟨r1, r2, normLoopOnly u.loopOnly⟩ :: rest, ?_⟩
    rw [normUnits, skip_condition_empty_ignore]
    simp [hr1, hr2, hrest, Bind.bind, Except.bind]

theorem normUnits_unsupported : ∀ us : List RawUnit,
    (∀ u ∈ us, parseOkOrUnsupported u.srcip = true ∧ parseOkOrUnsupported u.dstip = true) →
    (∃ u ∈ us, isUnsupportedMod u.srcip = true ∨ isUnsupportedMod u.dstip = true) →
    ∃ s, normUnits [] us = .error (.unsupportedModifier s)
      ∧ (∃ u ∈ us, u.srcip = some s ∨ u.dstip = some s)
      ∧ isUnsupportedMod (some s) = true := by
  intro us
  induction us with
  | nil => intro _ hbad; simp at hbad
  | cons u us ih =>
    intro hok hbad
    have hu := hok u (List.mem_cons_self ..)
    by_cases hs : isUnsupportedMod u.srcip = true
    · obtain ⟨s, hvs, hps⟩ := isUnsupportedMod_parse _ hs
      refine ⟨s, ?_, ⟨u, List.mem_cons_self .., Or.inl hvs⟩, hvs ▸ hs⟩
      rw [normUnits, skip_condition_empty_ignore]
      simp [hvs, hps, Bind.bind, Except.bind]
    · obtain ⟨r1, hr1⟩ :=
        parse_ok_of_not_unsupported _ hu.1 (by simpa using hs)
      by_cases hd : isUnsupportedMod u.dstip = true
      · obtain ⟨s, hvs, hps⟩ := isUnsupportedMod_parse _ hd
        refine ⟨s, ?_, ⟨u, List.mem_cons_self .., Or.inr hvs⟩, hvs ▸ hd⟩
        rw [normUnits, skip_condition_empty_ignore]
        simp [hr1, hvs, hps, Bind.bind, Except.bind]
      · have hbad2 : ∃ v ∈ us, isUnsupportedMod v.srcip = true
            ∨ isUnsupportedMod v.dstip = true := by
          rcases hbad with ⟨v, hv, hvb⟩
          rcases List.mem_cons.mp hv with rfl | hv2
          · rcases hvb with h | h
            · exact absurd h hs
            · exact absurd h hd
          · exact ⟨v, hv2, hvb⟩
        obtain ⟨r2, hr2⟩ :=
          parse_ok_of_not_unsupported _ hu.2 (by simpa using hd)
        obtain ⟨s, hrec, hocc, hbadS⟩ :=
          ih (fun v hv => hok v (List.mem_cons_of_mem _ hv)) hbad2
        refine ⟨s, ?_, ?_, hbadS⟩
        · rw [normUnits, skip_condition_empty_ignore]
          simp [hr1, hr2, hrec, Bind.bind, Except.bind]
        · obtain ⟨v, hv, hvo⟩ := hocc
          exact ⟨v, List.mem_cons_of_mem _ hv, hvo⟩

/-- Counterexample for C4: the modifier string addConstantX(5) is neither of
the form addConstant of an unsigned integer nor addOffset of one, yet
parsing the configuration succeeds (the source only checks the prefix and
extracts the first digit run), so construction does not fail with the
unsupported-modifier error for every malformed modifier string. -/
theorem c4_counterexample :
    normalizeConfig [] ⟨[⟨some "addConstantX(5)", none, LoopOnly.all⟩], none, false⟩ =
      Except.ok ⟨[⟨some 5, none, []⟩], ⟨none, none, []⟩⟩ :=
  rfl

/-- C4 amended: a modifier string that does not start with addConstant and
does not start with addOffset and is not the literal None always fails in
_parse_config_item with the unsupported-modifier error; and for every
configuration with no ignored loops in which each modifier entry either
parses or is such an unsupported string (that is, no entry merely
prefix-matches without digits, which would escape as IndexError first), if
some unit or the loop carries an unsupported srcip or dstip modifier then
construction fails at configuration-parse time, before any replication
computation, with the unsupported-modifier error naming one of the
unsupported modifier strings of the configuration. -/
theorem c4_unsupported_modifier_at_parse_time :
    (∀ s : String, strStartsWith s "addConstant" = false →
        strStartsWith s "addOffset" = false → s ≠ "None" →
        parseConfigItem (some s) = .error (.unsupportedModifier s))
    ∧ (∀ cfg : RawConfig, cfg.extraKeys = false →
        (∀ u ∈ cfg.units, parseOkOrUnsupported u.srcip = true
          ∧ parseOkOrUnsupported u.dstip = true) →
        parseOkOrUnsupported (cfg.loop.getD ⟨none, none⟩).srcip = true →
        parseOkOrUnsupported (cfg.loop.getD ⟨none, none⟩).dstip = true →
        ((∃ u ∈ cfg.units, isUnsupportedMod u.srcip = true
            ∨ isUnsupportedMod u.dstip = true)
          ∨ isUnsupportedMod (cfg.loop.getD ⟨none, none⟩).srcip = true
          ∨ isUnsupportedMod (cfg.loop.getD ⟨none, none⟩).dstip = true) →
        ∃ s, normalizeConfig [] cfg = .error (.unsupportedModifier s)
          ∧ ((∃ u ∈ cfg.units, u.srcip = some s ∨ u.dstip = some s)
            ∨ (cfg.loop.getD ⟨none, none⟩).srcip = some s
            ∨ (cfg.loop.getD ⟨none, none⟩).dstip = some s)
          ∧ isUnsupportedMod (some s) = true) := by
  refine ⟨parseConfigItem_unsupported, ?_⟩
  intro cfg hkeys hus hls hld hbad
  by_cases hub : ∃ u ∈ cfg.units, isUnsupportedMod u.srcip = true
      ∨ isUnsupportedMod u.dstip = true
  · obtain ⟨s, herr, hocc, hbadS⟩ := normUnits_unsupported cfg.units hus hub
    refine ⟨s, ?_, Or.inl hocc, hbadS⟩
    rw [normalizeConfig]
    simp [hkeys, herr, Bind.bind, Except.bind]
  · have hclean : ∀ u ∈ cfg.units, (∃ r, parseConfigItem u.srcip = .ok r)
        ∧ ∃ r, parseConfigItem u.dstip = .ok r := by
      intro u hu
      have hnb : ¬(isUnsupportedMod u.srcip = true ∨ isUnsupportedMod u.dstip = true) :=
        fun hb => hub ⟨u, hu, hb⟩
      push_neg at hnb
      exact ⟨parse_ok_of_not_unsupported _ (hus u hu).1 (by simpa using hnb.1),
             parse_ok_of_not_unsupported _ (hus u hu).2 (by simpa using hnb.2)⟩
    obtain ⟨l, hl⟩ := normUnits_ok_of_all_ok cfg.units hclean
    rcases hbad with hb | hbs | hbd
    · exact absurd hb hub
    · obtain ⟨s, hvs, hps⟩ := isUnsupportedMod_parse _ hbs
      refine ⟨s, ?_, Or.inr (Or.inl hvs), hvs ▸ hbs⟩
      rw [normalizeConfig]
      simp [hkeys, hl, hvs, hps, Bind.bind, Except.bind]
    · by_cases hbs2 : isUnsupportedMod (cfg.loop.getD ⟨none, none⟩).srcip = true
      · obtain ⟨s, hvs, hps⟩ := isUnsupportedMod_parse _ hbs2
        refine ⟨s, ?_, Or.inr (Or.inl hvs), hvs ▸ hbs2⟩
        rw [normalizeConfig]
        simp [hkeys, hl, hvs, hps, Bind.bind, Except.bind]
      · obtain ⟨r1, hr1⟩ := parse_ok_of_not_unsupported _ hls (by simpa using hbs2)
        obtain ⟨s, hvs, hps⟩ := isUnsupportedMod_parse _ hbd
        refine ⟨s, ?_, Or.inr (Or.inr hvs), hvs ▸ hbd⟩
        rw [normalizeConfig]
        simp [hkeys, hl, hr1, hvs, hps, Bind.bind, Except.bind]

/-- Witness for C4: a two-unit configuration with the unsupported addCounter
modifier in the first unit dstip entry satisfies every hypothesis, and the
claim theorem delivers the parse-time unsupported-modifier failure. -/
theorem c4_unsupported_modifier_witness :
    exBadConfig.extraKeys = false
    ∧ (∀ u ∈ exBadConfig.units,
        parseOkOrUnsupported u.srcip = true ∧ parseOkOrUnsupported u.dstip = true)
    ∧ parseOkOrUnsupported (exBadConfig.loop.getD ⟨none, none⟩).srcip = true
    ∧ parseOkOrUnsupported (exBadConfig.loop.getD ⟨none, none⟩).dstip = true
    ∧ ((∃ u ∈ exBadConfig.units, isUnsupportedMod u.srcip = true
          ∨ isUnsupportedMod u.dstip = true)
        ∨ isUnsupportedMod (exBadConfig.loop.getD ⟨none, none⟩).srcip = true
        ∨ isUnsupportedMod (exBadConfig.loop.getD ⟨none, none⟩).dstip = true)
    ∧ ∃ s, normalizeConfig [] exBadConfig = .error (.unsupportedModifier s)
        ∧ ((∃ u ∈ exBadConfig.units, u.srcip = some s ∨ u.dstip = some s)
          ∨ (exBadConfig.loop.getD ⟨none, none⟩).srcip = some s
          ∨ (exBadConfig.loop.getD ⟨none, none⟩).dstip = some s)
        ∧ isUnsupportedMod (some s) = true :=
  ⟨rfl, by decide, rfl, rfl, by decide,
    c4_unsupported_modifier_at_parse_time.2 exBadConfig rfl (by decide) rfl rfl (by decide)⟩

theorem gapsOf_length : ∀ g : List LRow, (gapsOf g).length = g.length
  | [] => rfl
  | [_] => rfl
  | _ :: b :: rest => by
    simp [gapsOf, gapsOf_length (b :: rest)]

theorem firstUniq_cons {α : Type} [DecidableEq α] (x : α) (l : List α) :
    firstUniq (x :: l) = x :: (firstUniq l).filter (fun y => y ≠ x) := rfl

theorem aggrNosGo_length (t : Int) :
    ∀ (gs : List (Option Int)) (c : Nat), (aggrNosGo t c gs).length = gs.length := by
  intro gs
  induction gs with
  | nil => intro c; rfl
  | cons g rest ih =>
    intro c
    rw [aggrNosGo, List.length_cons, List.length_cons, ih]

theorem aggrNosGo_le (t : Int) :
    ∀ (gs : List (Option Int)) (c : Nat), ∀ n ∈ aggrNosGo t c gs, c ≤ n := by
  intro gs
  induction gs with
  | nil => intro c n hn; simp [aggrNosGo] at hn
  | cons g rest ih =>
    intro c n hn
    rw [aggrNosGo] at hn
    rcases List.mem_cons.mp hn with h | h
    · omega
    · have := ih (if gapGE g t then c + 1 else c) n h
      split at this <;> omega

theorem gapsOf_cons_exists (b : LRow) (rest : List LRow) :
    ∃ x xs, gapsOf (b :: rest) = x :: xs := by
  cases rest with
  | nil => exact ⟨none, [], rfl⟩
  | cons b2 rest2 => exact ⟨_, _, rfl⟩

theorem firstUniq_cons_of_forall_ne {α : Type} [DecidableEq α] (x : α) (l : List α)
    (h : ∀ y ∈ l, y ≠ x) : firstUniq (x :: l) = x :: firstUniq l := by
  rw [firstUniq, List.filter_eq_self.mpr]
  intro a ha
  simp only [ne_eq, decide_eq_true_eq]
  exact h a (mem_of_mem_firstUniq ha)

theorem firstUniq_cons_dup {α : Type} [DecidableEq α] (x : α) (l : List α) :
    firstUniq (x :: x :: l) = firstUniq (x :: l) := by
  rw [firstUniq_cons, firstUniq_cons x l]
  congr 1
  rw [List.filter_cons]
  simp [List.filter_filter]

theorem specSplitAtGaps_cons_cut (t : Int) (a b : LRow) (rest : List LRow)
    (h : t ≤ (b.startTime : Int) - (a.endTime : Int)) :
    specSplitAtGaps t (a :: b :: rest) = [a] :: specSplitAtGaps t (b :: rest) := by
  rw [specSplitAtGaps, if_pos h]

theorem specSplitAtGaps_cons_nocut (t : Int) (a b : LRow) (rest : List LRow)
    (h : ¬t ≤ (b.startTime : Int) - (a.endTime : Int))
    (g : List LRow) (gs : List (List LRow))
    (htail : specSplitAtGaps t (b :: rest) = g :: gs) :
    specSplitAtGaps t (a :: b :: rest) = (a :: g) :: gs := by
  rw [specSplitAtGaps, if_neg h, htail]

theorem split_groups (t : Int) :
    ∀ (group : List LRow), group ≠ [] → ∀ (c : Nat),
      (firstUniq (aggrNosGo t c (gapsOf group))).map
        (fun n => ((group.zip (aggrNosGo t c (gapsOf group))).filter
          (fun p => decide (p.2 = n))).map Prod.fst)
      = specSplitAtGaps t group
  | [], h => absurd rfl h
  | [r], _ => by
    intro c
    simp [gapsOf, aggrNosGo, firstUniq_cons, firstUniq, specSplitAtGaps]
  | a :: b :: rest, _ => by
    intro c
    have ih := fun (c' : Nat) => split_groups t (b :: rest) (by simp) c'
    have hgaps : gapsOf (a :: b :: rest) =
        some ((b.startTime : Int) - (a.endTime : Int)) :: gapsOf (b :: rest) := rfl
    by_cases hcut : t ≤ (b.startTime : Int) - (a.endTime : Int)
    · -- a cut position: the head forms its own sub-group
      have hnos : aggrNosGo t c (gapsOf (a :: b :: rest)) =
          c :: aggrNosGo t (c + 1) (gapsOf (b :: rest)) := by
        rw [hgaps, aggrNosGo]
        congr 1
        simp [gapGE, hcut]
      have hne : ∀ n ∈ aggrNosGo t (c + 1) (gapsOf (b :: rest)), n ≠ c := by
        intro n hn
        have := aggrNosGo_le t (gapsOf (b :: rest)) (c + 1) n hn
        omega
      rw [hnos, firstUniq_cons_of_forall_ne c _ hne, List.map_cons]
      simp only [List.zip_cons_cons]
      have hfiltail : ((b :: rest).zip (aggrNosGo t (c + 1) (gapsOf (b :: rest)))).filter
          (fun p => decide (p.2 = c)) = [] := by
        rw [List.filter_eq_nil_iff]
        intro p hp
        simp only [decide_eq_true_eq]
        exact hne _ (List.of_mem_zip hp).2
      rw [List.filter_cons_of_pos (by simp), hfiltail, specSplitAtGaps_cons_cut t a b rest hcut]
      congr 1
      rw [← ih (c + 1)]
      apply List.map_congr_left
      intro n hn
      have hnc : n ≠ c := hne n (mem_of_mem_firstUniq hn)
      rw [List.filter_cons_of_neg (by simp [Ne.symm hnc])]
    · -- no cut: the head joins the first sub-group of the tail
      obtain ⟨x, xs, hgs⟩ := gapsOf_cons_exists b rest
      have hnos : aggrNosGo t c (gapsOf (a :: b :: rest)) =
          c :: aggrNosGo t c (gapsOf (b :: rest)) := by
        rw [hgaps, aggrNosGo]
        congr 1
        simp [gapGE, hcut]
      have hnosT : aggrNosGo t c (gapsOf (b :: rest)) =
          c :: aggrNosGo t (if gapGE x t then c + 1 else c) xs := by
        rw [hgs, aggrNosGo]
      have hfirst : firstUniq (c :: aggrNosGo t c (gapsOf (b :: rest))) =
          firstUniq (aggrNosGo t c (gapsOf (b :: rest))) := by
        rw [hnosT, firstUniq_cons_dup]
      have hfu : firstUniq (aggrNosGo t c (gapsOf (b :: rest))) =
          c :: (firstUniq (aggrNosGo t (if gapGE x t then c + 1 else c) xs)).filter
            (fun y => y ≠ c) := by
        rw [hnosT, firstUniq_cons]
      have ihc := ih c
      rw [hfu, List.map_cons] at ihc
      rw [hnos, hfirst, hfu, List.map_cons]
      simp only [List.zip_cons_cons]
      rw [List.filter_cons_of_pos (by simp), List.map_cons]
      rw [specSplitAtGaps_cons_nocut t a b rest hcut _ _ ihc.symm]
      congr 1
      apply List.map_congr_left
      intro n hn
      have hnc : n ≠ c := by
        have := List.mem_filter.mp hn
        simpa using this.2
      rw [List.filter_cons_of_neg (by simp [Ne.symm hnc])]

theorem firstUniq_map_of_injective {α β : Type} [DecidableEq α] [DecidableEq β]
    (f : α → β) (hf : ∀ a b, f a = f b → a = b) :
    ∀ l : List α, firstUniq (l.map f) = (firstUniq l).map f := by
  intro l
  induction l with
  | nil => rfl
  | cons x xs ih =>
    rw [List.map_cons, firstUniq_cons, firstUniq_cons, ih, List.map_cons, List.filter_map]
    congr 1
    congr 1
    apply List.filter_congr
    intro a _
    show decide (f a ≠ f x) = decide (a ≠ x)
    apply decide_eq_decide.mpr
    constructor
    · intro h hax
      exact h (congrArg f hax)
    · intro h hfa
      exact h (hf a x hfa)

theorem mergeFunc_eq_split (t : Int) (ht : 0 < t) (k : Nat × IpAddr × IpAddr × Nat × Nat)
    (group : List LRow) (hk : ∀ r ∈ group, repKeyOf r = k) (hlen : 1 < group.length) :
    mergeFunc (some t) group = (specSplitAtGaps t group).map (aggCsv k) := by
  have hgne : group ≠ [] := by
    intro hnil
    rw [hnil] at hlen
    simp at hlen
  have htt : timeoutTruthy (some t) = true := by
    simp only [timeoutTruthy, ne_eq, decide_eq_true_eq]
    omega
  have hlennos : (aggrNosGo t 0 (gapsOf group)).length ≤ group.length := by
    rw [aggrNosGo_length, gapsOf_length]
  rw [mergeFunc, if_pos hlen, htt]
  simp only [if_true, Option.getD_some]
  have hsnd : (group.zip (aggrNosGo t 0 (gapsOf group))).map Prod.snd
      = aggrNosGo t 0 (gapsOf group) := List.map_snd_zip _ _ hlennos
  have hmapkey : (group.zip (aggrNosGo t 0 (gapsOf group))).map (fun p => (repKeyOf p.1, p.2))
      = (aggrNosGo t 0 (gapsOf group)).map (fun n => (k, n)) := by
    have h1 : (group.zip (aggrNosGo t 0 (gapsOf group))).map (fun p => (repKeyOf p.1, p.2))
        = (group.zip (aggrNosGo t 0 (gapsOf group))).map ((fun n => (k, n)) ∘ Prod.snd) := by
      apply List.map_congr_left
      intro p hp
      simp only [Function.comp]
      rw [hk p.1 (List.of_mem_zip hp).1]
    rw [h1, ← List.map_map, hsnd]
  rw [hmapkey, firstUniq_map_of_injective (fun n => (k, n))
    (fun a b hab => by simpa using hab), List.map_map]
  have hinner : ∀ n ∈ firstUniq (aggrNosGo t 0 (gapsOf group)),
      ((fun kk => aggCsv kk.1 (((group.zip (aggrNosGo t 0 (gapsOf group))).filter
          (fun p => decide ((repKeyOf p.1, p.2) = kk))).map Prod.fst)) ∘ (fun n => (k, n))) n
      = aggCsv k (((group.zip (aggrNosGo t 0 (gapsOf group))).filter
          (fun p => decide (p.2 = n))).map Prod.fst) := by
    intro n hn
    simp only [Function.comp]
    congr 2
    apply List.filter_congr
    intro p hp
    apply decide_eq_decide.mpr
    rw [hk p.1 (List.of_mem_zip hp).1]
    constructor
    · intro h
      exact (Prod.mk.injEq .. ▸ h).2
    · intro h
      rw [h]
  rw [List.map_congr_left hinner]
  have hG : (firstUniq (aggrNosGo t 0 (gapsOf group))).map
      (fun n => aggCsv k (((group.zip (aggrNosGo t 0 (gapsOf group))).filter
        (fun p => decide (p.2 = n))).map Prod.fst))
      = ((firstUniq (aggrNosGo t 0 (gapsOf group))).map
          (fun n => ((group.zip (aggrNosGo t 0 (gapsOf group))).filter
            (fun p => decide (p.2 = n))).map Prod.fst)).map (aggCsv k) := by
    rw [List.map_map]
    rfl
  rw [hG, split_groups t group hgne 0]

/-- Counterexample for C3: with a configured inactive timeout of exactly 0
milliseconds the gap of 500 between the example records is at least the
timeout, so the claim demands two sub-groups, but the source tests the
stored timeout for Python truthiness, treats 0 as unconfigured and merges
the whole group into one record. -/
theorem c3_counterexample :
    ¬(mergeFunc (some 0) exGapGroup =
        (specSplitAtGaps 0 exGapGroup).map (aggCsv (repKeyOf (exLRow 900 1000))))
    ∧ (mergeFunc (some 0) exGapGroup).length = 1
    ∧ (specSplitAtGaps 0 exGapGroup).length = 2 := by
  refine ⟨?_, by decide, by decide⟩
  intro h
  have h1 : (mergeFunc (some 0) exGapGroup).length = 1 := by decide
  have h2 : ((specSplitAtGaps 0 exGapGroup).map
      (aggCsv (repKeyOf (exLRow 900 1000)))).length = 2 := by decide
  rw [h] at h1
  rw [h1] at h2
  exact absurd h2 (by decide)

/-- C3 amended: for every flow-key group of more than one record sorted by
start time, whenever a strictly positive inactive timeout is configured the
group is partitioned exactly at the positions whose gap (next start minus
previous end) is at least the timeout and every sub-group is aggregated with
min start, max end and summed packets and bytes (a timeout of 0 is treated
as unconfigured by the truthiness test and the whole group merges); in
particular the example records with end 1000 and start 1500 merge into one
record under a 600 ms timeout and stay separate under a 400 ms timeout. -/
theorem c3_cross_loop_gap_partition :
    (∀ (t : Int) (k : Nat × IpAddr × IpAddr × Nat × Nat) (group : List LRow),
        0 < t → (∀ r ∈ group, repKeyOf r = k) →
        List.Pairwise (fun x y => x.startTime ≤ y.startTime) group →
        1 < group.length →
        mergeFunc (some t) group = (specSplitAtGaps t group).map (aggCsv k))
    ∧ (∀ group : List LRow, mergeFunc (some 0) group = mergeFunc none group)
    ∧ mergeFunc (some 600) exGapGroup =
        [{ startTime := 900, endTime := 1600, protocol := 6, srcIp := .v4 1, dstIp := .v4 2,
           srcPort := 10, dstPort := 20, packets := 10, bytes := 200 }]
    ∧ (mergeFunc (some 400) exGapGroup).length = 2 := by
  refine ⟨?_, fun group => rfl, by decide, by decide⟩
  intro t k group ht hk _ hlen
  exact mergeFunc_eq_split t ht k group hk hlen

/-- Witness for C3: the amended partition equation instantiated at the
example group under the 400 ms timeout, with every hypothesis discharged
concretely. -/
theorem c3_cross_loop_gap_partition_witness :
    (0 : Int) < 400
    ∧ (∀ r ∈ exGapGroup, repKeyOf r = repKeyOf (exLRow 900 1000))
    ∧ List.Pairwise (fun x y => x.startTime ≤ y.startTime) exGapGroup
    ∧ 1 < exGapGroup.length
    ∧ mergeFunc (some 400) exGapGroup =
        (specSplitAtGaps 400 exGapGroup).map (aggCsv (repKeyOf (exLRow 900 1000))) :=
  ⟨by decide, by decide, by decide, by decide,
    c3_cross_loop_gap_partition.1 400 (repKeyOf (exLRow 900 1000)) exGapGroup
      (by decide) (by decide) (by decide) (by decide)⟩

theorem smAggGroup_time_ok {α : Type} (k : α × α × Nat × Nat × Nat) (g : List (Row α))
    (hg : g ≠ []) (h : ∀ r ∈ g, r.startTime ≤ r.endTime) :
    (smAggGroup k g).startTime ≤ (smAggGroup k g).endTime := by
  obtain ⟨r, hr⟩ := List.exists_mem_of_ne_nil g hg
  calc listMinD (g.map (·.startTime)) ≤ r.startTime :=
        listMinD_le_of_mem (List.mem_map_of_mem _ hr)
    _ ≤ r.endTime := h r hr
    _ ≤ listMaxD (g.map (·.endTime)) := le_listMaxD_of_mem (List.mem_map_of_mem _ hr)

theorem aggLoopGroup_time_ok (k : (Nat × IpAddr × IpAddr × Nat × Nat) × Nat × Nat × Nat)
    (g : List RRow) (hg : g ≠ []) (h : ∀ r ∈ g, r.startTime ≤ r.endTime) :
    (aggLoopGroup k g).startTime ≤ (aggLoopGroup k g).endTime := by
  obtain ⟨r, hr⟩ := List.exists_mem_of_ne_nil g hg
  calc listMinD (g.map (·.startTime)) ≤ r.startTime :=
        listMinD_le_of_mem (List.mem_map_of_mem _ hr)
    _ ≤ r.endTime := h r hr
    _ ≤ listMaxD (g.map (·.endTime)) := le_listMaxD_of_mem (List.mem_map_of_mem _ hr)

theorem aggCsv_time_ok (k : Nat × IpAddr × IpAddr × Nat × Nat) (g : List LRow)
    (hg : g ≠ []) (h : ∀ r ∈ g, r.startTime ≤ r.endTime) :
    (aggCsv k g).startTime ≤ (aggCsv k g).endTime := by
  obtain ⟨r, hr⟩ := List.exists_mem_of_ne_nil g hg
  calc listMinD (g.map (·.startTime)) ≤ r.startTime :=
        listMinD_le_of_mem (List.mem_map_of_mem _ hr)
    _ ≤ r.endTime := h r hr
    _ ≤ listMaxD (g.map (·.endTime)) := le_listMaxD_of_mem (List.mem_map_of_mem _ hr)

theorem mergeFlows_time_ok (rows : List (Row String))
    (h : ∀ r ∈ rows, r.startTime ≤ r.endTime) :
    ∀ m ∈ mergeFlows rows, m.startTime ≤ m.endTime := by
  intro m hm
  rw [mergeFlows] at hm
  obtain ⟨k, hk, rfl⟩ := List.mem_map.mp hm
  have hk2 : k ∈ firstUniq (rows.map smKey) :=
    (List.perm_insertionSort _ _).mem_iff.mp hk
  obtain ⟨r, hr, hkr⟩ := List.mem_map.mp (mem_of_mem_firstUniq hk2)
  have hrf : r ∈ rows.filter (fun x => decide (smKey x = k)) :=
    List.mem_filter.mpr ⟨hr, by simp [hkr]⟩
  exact smAggGroup_time_ok k _ (List.ne_nil_of_mem hrf)
    (fun x hx => h x (List.mem_filter.mp hx).1)

theorem biflowCorrect_time_ok (rows : List (MRow String))
    (h : ∀ m ∈ rows, m.startTime ≤ m.endTime) :
    ∀ m ∈ biflowCorrect rows, m.startTime ≤ m.endTime := by
  intro m hm
  rw [biflowCorrect] at hm
  obtain ⟨r, hr, rfl⟩ := List.mem_map.mp hm
  have hrg : r ∈ rows.filter (fun x => decide (invKey x = invKey r)) :=
    List.mem_filter.mpr ⟨hr, by simp⟩
  calc listMinD ((rows.filter (fun x => decide (invKey x = invKey r))).map (fun x => x.startTime))
      ≤ r.startTime := listMinD_le_of_mem (List.mem_map_of_mem _ hrg)
    _ ≤ r.endTime := h r hr
    _ ≤ listMaxD ((rows.filter (fun x => decide (invKey x = invKey r))).map (fun x => x.endTime)) :=
        le_listMaxD_of_mem (List.mem_map_of_mem _ hrg)

theorem processSingleLoop_time_ok (cfg : ReplicatorConfig) (loopN globalStart loopLength : Nat)
    (flows : List RRow) :
    ∀ r ∈ processSingleLoop cfg loopN globalStart loopLength flows,
      r.startTime ≤ r.endTime := by
  intro r hr
  simp only [processSingleLoop] at hr
  replace hr :=
    (List.perm_insertionSort (fun (a b : LRow) => a.origIndex ≤ b.origIndex) _).mem_iff.mp hr
  obtain ⟨k, hk, rfl⟩ := List.mem_map.mp hr
  obtain ⟨r0, hr0, hkr0⟩ := List.mem_map.mp (mem_of_mem_firstUniq hk)
  have hrep : ∀ x ∈ ((cfg.units.filter (fun u =>
        u.loopOnly.isEmpty || decide ((loopN : Int) ∈ u.loopOnly))).map
      (fun u => processReplicationUnit u (flows.map (fun r =>
        { r with startTime := globalStart + loopN * loopLength + r.startOff,
                 endTime := globalStart + loopN * loopLength + r.startOff + r.flowLen,
                 srcOff := r.srcOff + loopN * cfg.loop.srcip.getD 0,
                 dstOff := r.dstOff + loopN * cfg.loop.dstip.getD 0 })))).flatten,
      x.startTime ≤ x.endTime := by
    intro x hx
    obtain ⟨lu, hlu, hxl⟩ := List.mem_flatten.mp hx
    obtain ⟨u, _, rfl⟩ := List.mem_map.mp hlu
    rw [processReplicationUnit] at hxl
    obtain ⟨y, hy, rfl⟩ := List.mem_map.mp hxl
    obtain ⟨z, _, rfl⟩ := List.mem_map.mp hy
    exact Nat.le_add_right _ _
  have hr0f : r0 ∈ (((cfg.units.filter (fun u =>
        u.loopOnly.isEmpty || decide ((loopN : Int) ∈ u.loopOnly))).map
      (fun u => processReplicationUnit u (flows.map (fun r =>
        { r with startTime := globalStart + loopN * loopLength + r.startOff,
                 endTime := globalStart + loopN * loopLength + r.startOff + r.flowLen,
                 srcOff := r.srcOff + loopN * cfg.loop.srcip.getD 0,
                 dstOff := r.dstOff + loopN * cfg.loop.dstip.getD 0 })))).flatten).filter
      (fun x => decide (loopMergeKey x = k)) :=
    List.mem_filter.mpr ⟨hr0, by simp [hkr0]⟩
  exact aggLoopGroup_time_ok k _ (List.ne_nil_of_mem hr0f)
    (fun x hx => hrep x (List.mem_filter.mp hx).1)

theorem replicateLoops_time_ok (cfg : ReplicatorConfig) (ignoreLoops : List Int) (loops : Nat)
    (globalStart loopLength : Nat) (flows : List RRow) :
    ∀ r ∈ replicateLoops cfg ignoreLoops loops globalStart loopLength flows,
      r.startTime ≤ r.endTime := by
  intro r hr
  rw [replicateLoops] at hr
  obtain ⟨l, hl, hrl⟩ := List.mem_flatten.mp hr
  obtain ⟨n, _, rfl⟩ := List.mem_map.mp hl
  exact processSingleLoop_time_ok cfg n globalStart loopLength flows r hrl

theorem mergeFunc_time_ok (timeout : Option Int) (group : List LRow)
    (h : ∀ r ∈ group, r.startTime ≤ r.endTime) :
    ∀ r ∈ mergeFunc timeout group, r.startTime ≤ r.endTime := by
  intro r hr
  rw [mergeFunc] at hr
  by_cases hlen : 1 < group.length
  · rw [if_pos hlen] at hr
    obtain ⟨kk, hkk, rfl⟩ := List.mem_map.mp hr
    obtain ⟨p, hp, hkp⟩ := List.mem_map.mp (mem_of_mem_firstUniq hkk)
    have hpf : p.1 ∈ (((group.zip (if timeoutTruthy timeout
          then aggrNosGo (timeout.getD 0) 0 (gapsOf group)
          else (gapsOf group).map (fun _ => 0))).filter
        (fun q => decide ((repKeyOf q.1, q.2) = kk))).map Prod.fst) :=
      List.mem_map_of_mem _ (List.mem_filter.mpr ⟨hp, by simp [hkp]⟩)
    refine aggCsv_time_ok kk.1 _ (List.ne_nil_of_mem hpf) ?_
    intro x hx
    obtain ⟨q, hq, rfl⟩ := List.mem_map.mp hx
    exact h q.1 (List.of_mem_zip (List.mem_filter.mp hq).1).1
  · rw [if_neg hlen] at hr
    obtain ⟨z, hz, rfl⟩ := List.mem_map.mp hr
    exact h z hz

theorem mergeAcrossLoop_time_ok (timeout : Option Int) (flows : List LRow)
    (h : ∀ r ∈ flows, r.startTime ≤ r.endTime) :
    ∀ r ∈ mergeAcrossLoop timeout flows, r.startTime ≤ r.endTime := by
  intro r hr
  rw [mergeAcrossLoop] at hr
  obtain ⟨l, hl, hrl⟩ := List.mem_flatten.mp hr
  obtain ⟨k, _, rfl⟩ := List.mem_map.mp hl
  exact mergeFunc_time_ok timeout _
    (fun x hx => h x (List.mem_filter.mp hx).1) r hrl

theorem replicate_time_ok (cfg : ReplicatorConfig) (ignoreLoops : List Int) (loops : Nat)
    (mergeAcrossLoops : Bool) (inactiveTimeout : Int) (speedMultiplier : ℚ)
    (flows : List (Row IpAddr)) :
    ∀ r ∈ replicate cfg ignoreLoops loops mergeAcrossLoops inactiveTimeout
        speedMultiplier flows,
      r.startTime ≤ r.endTime := by
  intro r hr
  simp only [replicate] at hr
  have hwith : ∀ x ∈ (replicateLoops cfg ignoreLoops loops
        (listMinD (flows.map (·.startTime)))
        (⌊((listMaxD (flows.map (·.endTime)) - listMinD (flows.map (·.startTime)) : Nat) : ℚ)
          * (1 / speedMultiplier)⌋₊)
        (prepareFlows (1 / speedMultiplier) (listMinD (flows.map (·.startTime))) flows)).map
        (fun r => { r with srcIp := r.srcIp.addOff r.srcOff, dstIp := r.dstIp.addOff r.dstOff }),
      x.startTime ≤ x.endTime := by
    intro x hx
    obtain ⟨z, hz, rfl⟩ := List.mem_map.mp hx
    exact replicateLoops_time_ok cfg ignoreLoops loops _ _ _ z hz
  by_cases hma : mergeAcrossLoops
  · rw [if_pos hma] at hr
    exact mergeAcrossLoop_time_ok _ _ hwith r hr
  · rw [if_neg hma] at hr
    obtain ⟨z, hz, rfl⟩ := List.mem_map.mp hr
    exact hwith z hz

/-- C9: every record produced by merging, by time or subnet segment
filtering, by replication with any loop count and a positive speed
multiplier, or by cross-loop merging satisfies END_TIME at or after
START_TIME, provided every input record does. -/
theorem c9_end_time_ge_start_time :
    (∀ (biflow : Bool) (rows : List (Row String)),
        (∀ r ∈ rows, r.startTime ≤ r.endTime) →
        ∀ m ∈ mergeFlowsFull biflow rows, m.startTime ≤ m.endTime)
    ∧ (∀ (seg : SMTimeSegment) (flows ref : List (Row String))
        (out : List (Row String) × List (Row String) × List Bool),
        filterTimeSegment seg flows ref = some out →
        (∀ r ∈ flows, r.startTime ≤ r.endTime) →
        (∀ r ∈ ref, r.startTime ≤ r.endTime) →
        (∀ r ∈ out.1, r.startTime ≤ r.endTime) ∧ ∀ r ∈ out.2.1, r.startTime ≤ r.endTime)
    ∧ (∀ (seg : SMSubnetSegment) (flows ref : List (Row IpAddr))
        (out : List (Row IpAddr) × List (Row IpAddr) × List Bool),
        filterSubnetSegment seg flows ref = some out →
        (∀ r ∈ flows, r.startTime ≤ r.endTime) →
        (∀ r ∈ ref, r.startTime ≤ r.endTime) →
        (∀ r ∈ out.1, r.startTime ≤ r.endTime) ∧ ∀ r ∈ out.2.1, r.startTime ≤ r.endTime)
    ∧ (∀ (cfg : ReplicatorConfig) (ignoreLoops : List Int) (loops : Nat)
        (mergeAcrossLoops : Bool) (inactiveTimeout : Int) (speedMultiplier : ℚ)
        (flows : List (Row IpAddr)), 0 < speedMultiplier →
        (∀ r ∈ flows, r.startTime ≤ r.endTime) →
        ∀ r ∈ replicate cfg ignoreLoops loops mergeAcrossLoops inactiveTimeout
            speedMultiplier flows,
          r.startTime ≤ r.endTime)
    ∧ (∀ (timeout : Option Int) (group : List LRow),
        (∀ r ∈ group, r.startTime ≤ r.endTime) →
        ∀ r ∈ mergeFunc timeout group, r.startTime ≤ r.endTime) := by
  refine ⟨?_, ?_, ?_, ?_, ?_⟩
  · intro biflow rows h m hm
    rw [mergeFlowsFull] at hm
    cases biflow with
    | false => exact mergeFlows_time_ok rows h m (by simpa using hm)
    | true =>
      exact biflowCorrect_time_ok (mergeFlows rows) (mergeFlows_time_ok rows h) m
        (by simpa using hm)
  · intro seg flows ref out hout hf hr
    rcases seg with ⟨st, en⟩
    cases st <;> cases en <;> simp only [filterTimeSegment] at hout
    · exact absurd hout (by simp)
    all_goals
      injection hout with hout
      subst hout
      exact ⟨fun r hrm => hf r (List.mem_filter.mp hrm).1,
        fun r hrm => hr r (List.mem_filter.mp hrm).1⟩
  · intro seg flows ref out hout hf hr
    rcases seg with ⟨src, dst, bd⟩
    cases src <;> cases dst <;> simp only [filterSubnetSegment] at hout
    · exact absurd hout (by simp)
    all_goals
      injection hout with hout
      subst hout
      exact ⟨fun r hrm => hf r (List.mem_filter.mp hrm).1,
        fun r hrm => hr r (List.mem_filter.mp hrm).1⟩
  · intro cfg ignoreLoops loops ma tSec speed flows _ _
    exact replicate_time_ok cfg ignoreLoops loops ma tSec speed flows
  · exact mergeFunc_time_ok

/-- Witness for C9: every conjunct of the invariant theorem instantiated at
a concrete input with its hypotheses discharged. -/
theorem c9_end_time_ge_start_time_witness :
    ((∀ r ∈ [exRowA], r.startTime ≤ r.endTime)
      ∧ ∀ m ∈ mergeFlowsFull false [exRowA], m.startTime ≤ m.endTime)
    ∧ ((filterTimeSegment ⟨some 0, none⟩ ([] : List (Row String)) [] = some ([], [], []))
      ∧ ((∀ r ∈ (([], [], []) : List (Row String) × List (Row String) × List Bool).1,
            r.startTime ≤ r.endTime)
        ∧ ∀ r ∈ (([], [], []) : List (Row String) × List (Row String) × List Bool).2.1,
            r.startTime ≤ r.endTime))
    ∧ ((filterSubnetSegment exSubnetSeg ([] : List (Row IpAddr)) [] = some ([], [], []))
      ∧ ((∀ r ∈ (([], [], []) : List (Row IpAddr) × List (Row IpAddr) × List Bool).1,
            r.startTime ≤ r.endTime)
        ∧ ∀ r ∈ (([], [], []) : List (Row IpAddr) × List (Row IpAddr) × List Bool).2.1,
            r.startTime ≤ r.endTime))
    ∧ ((0 : ℚ) < 1 ∧ (∀ r ∈ [exSubnetRow], r.startTime ≤ r.endTime)
      ∧ ∀ r ∈ replicate ⟨[], ⟨none, none, []⟩⟩ [] 1 false (-1) 1 [exSubnetRow],
          r.startTime ≤ r.endTime)
    ∧ ((∀ r ∈ exGapGroup, r.startTime ≤ r.endTime)
      ∧ ∀ r ∈ mergeFunc (some 400) exGapGroup, r.startTime ≤ r.endTime) :=
  ⟨⟨by decide, c9_end_time_ge_start_time.1 false [exRowA] (by decide)⟩,
   ⟨rfl, c9_end_time_ge_start_time.2.1 ⟨some 0, none⟩ [] [] ([], [], []) rfl
      (by decide) (by decide)⟩,
   ⟨rfl, c9_end_time_ge_start_time.2.2.1 exSubnetSeg [] [] ([], [], []) rfl
      (by decide) (by decide)⟩,
   ⟨by decide, by decide,
    c9_end_time_ge_start_time.2.2.2.1 ⟨[], ⟨none, none, []⟩⟩ [] 1 false (-1) 1 [exSubnetRow]
      (by decide) (by decide)⟩,
   ⟨by decide, c9_end_time_ge_start_time.2.2.2.2 (some 400) exGapGroup (by decide)⟩⟩

end FlowTest
